import Mathlib

/-!
Verification of the dot-bracket structure parsing and base-pair model of the
`structured_mRNAs` repository.

The definitions below are shallow embeddings of the Python source:
* `pbpAux` / `parseBasePairs` — the stack scan of `_parse_base_pairs`
  (`src/prediction/rnafold_wrapper.py`, duplicated inline in
  `scripts/mrna_structure_pipeline.py` and
  `scripts/mrna_visualization_pipeline.py`);
* `validate_sequence` — `BasePredictor.validate_sequence` (`src/prediction/base.py`);
* `parse_rnafold_output` — `mRNAStructurePipeline.parse_rnafold_output`
  (`scripts/mrna_structure_pipeline.py`);
* `parse_rnafold_wrapper_output` — `RNAfoldPredictor._parse_rnafold_output`
  (`src/prediction/rnafold_wrapper.py`).

Strings are modelled as `List Char`, Python `float` values as `ℚ` (the energy
strings the code meets are plain signed decimals), and raised exceptions as
`Except` errors.
-/

/-- Embedding of the base-pair scan loop of `_parse_base_pairs`
(`rnafold_wrapper.py` lines 146–156): `(` pushes the current index on the
stack, `)` pops the most recent index `j` and emits `(j, i)` when the stack is
non-empty (and is silently skipped otherwise), all other characters are
skipped.  The Python stack's top (`list.pop()` end) is the head of `st`;
`base_pairs.append` adds at the right end of `acc`. -/
def pbpAux : List Char → Nat → List Nat → List (Nat × Nat) → List (Nat × Nat)
  | [], _, _, acc => acc
  | c :: cs, i, st, acc =>
    if c = '(' then pbpAux cs (i + 1) (i :: st) acc
    else if c = ')' then
      match st with
      | [] => pbpAux cs (i + 1) [] acc
      | j :: rest => pbpAux cs (i + 1) rest (acc ++ [(j, i)])
    else pbpAux cs (i + 1) st acc

/-- Python's tuple comparison on `(i, j)` pairs, as used by `sorted(base_pairs)`:
lexicographic order. -/
def pairLex (p q : Nat × Nat) : Prop := p.1 < q.1 ∨ (p.1 = q.1 ∧ p.2 ≤ q.2)

instance : DecidableRel pairLex := fun p q => by unfold pairLex; infer_instance

instance : IsTotal (Nat × Nat) pairLex :=
  ⟨fun p q => by unfold pairLex; omega⟩

instance : IsTrans (Nat × Nat) pairLex :=
  ⟨fun p q r hpq hqr => by unfold pairLex at *; omega⟩

/-- `sorted(base_pairs)` in `_parse_base_pairs` (line 157): Python's `sorted`
is a stable ascending sort under tuple comparison, which on lists agrees with
insertion sort under the same order. -/
def parseBasePairs (s : List Char) : List (Nat × Nat) :=
  List.insertionSort pairLex (pbpAux s 0 [] [])

/-- All indices mentioned by a pair list, in order. -/
def pairIdx (l : List (Nat × Nat)) : List Nat := l.flatMap (fun p => [p.1, p.2])

/-- Relation between a pair emitted earlier and one emitted later in the scan:
the later pair closes later, and is either disjoint to the right of the earlier
pair or strictly encloses it. -/
def EmitRel (p q : Nat × Nat) : Prop := p.2 < q.2 ∧ (p.2 < q.1 ∨ q.1 < p.1)

/-- Invariant of the scan state after processing the first `i` characters of
`s`, with open-bracket stack `st` and emitted pairs `acc`. -/
structure ScanInv (s : List Char) (i : Nat) (st : List Nat) (acc : List (Nat × Nat)) : Prop where
  st_lt : ∀ a ∈ st, a < i
  st_desc : List.Pairwise (fun a b => b < a) st
  st_open : ∀ a ∈ st, s[a]? = some '('
  acc_lt : ∀ p ∈ acc, p.1 < p.2 ∧ p.2 < i
  acc_pos : ∀ p ∈ acc, s[p.1]? = some '(' ∧ s[p.2]? = some ')'
  sep : ∀ p ∈ acc, ∀ a ∈ st, a < p.1 ∨ p.2 < a
  emit : List.Pairwise EmitRel acc
  idx_nodup : (pairIdx acc).Nodup
  st_fresh : ∀ a ∈ st, a ∉ pairIdx acc

theorem pairIdx_append (l₁ l₂ : List (Nat × Nat)) :
    pairIdx (l₁ ++ l₂) = pairIdx l₁ ++ pairIdx l₂ := by
  simp [pairIdx]

theorem pairIdx_singleton (p : Nat × Nat) : pairIdx [p] = [p.1, p.2] := by
  simp [pairIdx]

theorem mem_pairIdx {x : Nat} {l : List (Nat × Nat)} :
    x ∈ pairIdx l ↔ ∃ p ∈ l, x = p.1 ∨ x = p.2 := by
  simp [pairIdx]

/-- Core invariant-preservation lemma: running the scan from any state
satisfying `ScanInv` yields a pair list whose pairs open before they close,
sit on `(`/`)` characters of `s`, mention each index at most once, and are
pairwise `EmitRel`-related in emission order. -/
theorem pbpAux_inv (s : List Char) (cs : List Char) :
    ∀ (i : Nat) (st : List Nat) (acc : List (Nat × Nat)),
    (∀ k, cs[k]? = s[i + k]?) →
    ScanInv s i st acc →
    (∀ p ∈ pbpAux cs i st acc, p.1 < p.2 ∧ s[p.1]? = some '(' ∧ s[p.2]? = some ')') ∧
    (pairIdx (pbpAux cs i st acc)).Nodup ∧
    List.Pairwise EmitRel (pbpAux cs i st acc) := by
  induction cs with
  | nil =>
    intro i st acc _ hinv
    refine ⟨fun p hp => ⟨(hinv.acc_lt p hp).1, hinv.acc_pos p hp⟩, hinv.idx_nodup, hinv.emit⟩
  | cons c cs ih =>
    intro i st acc hk hinv
    have hc : s[i]? = some c := by
      have := hk 0
      simpa using this.symm
    have hk' : ∀ k, cs[k]? = s[(i + 1) + k]? := by
      intro k
      have := hk (k + 1)
      simpa [Nat.add_assoc, Nat.add_comm 1 k] using this
    by_cases h1 : c = '('
    · simp only [pbpAux, if_pos h1]
      apply ih (i + 1) (i :: st) acc hk'
      refine ⟨?_, ?_, ?_, ?_, hinv.acc_pos, ?_, hinv.emit, hinv.idx_nodup, ?_⟩
      · intro a ha
        rcases List.mem_cons.mp ha with rfl | ha
        · omega
        · exact Nat.lt_succ_of_lt (hinv.st_lt a ha)
      · exact List.pairwise_cons.mpr ⟨fun a ha => hinv.st_lt a ha, hinv.st_desc⟩
      · intro a ha
        rcases List.mem_cons.mp ha with rfl | ha
        · rw [hc, h1]
        · exact hinv.st_open a ha
      · intro p hp
        have := hinv.acc_lt p hp
        omega
      · intro p hp a ha
        rcases List.mem_cons.mp ha with rfl | ha
        · right; exact (hinv.acc_lt p hp).2
        · exact hinv.sep p hp a ha
      · intro a ha
        rcases List.mem_cons.mp ha with rfl | ha
        · intro hmem
          rcases mem_pairIdx.mp hmem with ⟨p, hp, hor⟩
          have := hinv.acc_lt p hp
          omega
        · exact hinv.st_fresh a ha
    · by_cases h2 : c = ')'
      · simp only [pbpAux, if_neg h1, if_pos h2]
        match st, hinv with
        | [], hinv =>
          apply ih (i + 1) [] acc hk'
          refine ⟨by simp, by simp, by simp, ?_, hinv.acc_pos, by simp, hinv.emit,
            hinv.idx_nodup, by simp⟩
          intro p hp
          have := hinv.acc_lt p hp
          omega
        | j :: rest, hinv =>
          apply ih (i + 1) rest (acc ++ [(j, i)]) hk'
          have hji : j < i := hinv.st_lt j (by simp)
          have hjrest : ∀ a ∈ rest, a < j :=
            fun a ha => (List.pairwise_cons.mp hinv.st_desc).1 a ha
          refine ⟨?_, ?_, ?_, ?_, ?_, ?_, ?_, ?_, ?_⟩
          · intro a ha
            have := hinv.st_lt a (List.mem_cons_of_mem j ha)
            omega
          · exact (List.pairwise_cons.mp hinv.st_desc).2
          · intro a ha; exact hinv.st_open a (List.mem_cons_of_mem j ha)
          · intro p hp
            rcases List.mem_append.mp hp with hp | hp
            · have := hinv.acc_lt p hp; omega
            · simp only [List.mem_singleton] at hp
              subst hp; simp; omega
          · intro p hp
            rcases List.mem_append.mp hp with hp | hp
            · exact hinv.acc_pos p hp
            · simp only [List.mem_singleton] at hp
              subst hp
              exact ⟨hinv.st_open j (by simp), by rw [hc, h2]⟩
          · intro p hp a ha
            rcases List.mem_append.mp hp with hp | hp
            · exact hinv.sep p hp a (List.mem_cons_of_mem j ha)
            · simp only [List.mem_singleton] at hp
              subst hp
              left
              exact hjrest a ha
          · rw [List.pairwise_append]
            refine ⟨hinv.emit, List.pairwise_singleton _ _, ?_⟩
            intro p hp q hq
            simp only [List.mem_singleton] at hq
            subst hq
            have h3 := (hinv.acc_lt p hp).2
            have h4 := hinv.sep p hp j (by simp)
            exact ⟨h3, by omega⟩
          · rw [pairIdx_append]
            rw [List.nodup_append]
            refine ⟨hinv.idx_nodup, ?_, ?_⟩
            · simp [pairIdx]; omega
            · intro x hx
              rcases mem_pairIdx.mp hx with ⟨p, hp, hor⟩
              have h3 := hinv.acc_lt p hp
              have h4 := hinv.st_fresh j (by simp)
              rw [pairIdx_singleton]
              simp only [List.mem_cons, List.mem_singleton, List.not_mem_nil, or_false]
              rintro (rfl | rfl)
              · exact h4 hx
              · rcases hor with rfl | rfl <;> omega
          · intro a ha
            rw [pairIdx_append]
            rw [List.mem_append]
            have ha' : a ∈ j :: rest := List.mem_cons_of_mem j ha
            rintro (hx | hx)
            · exact hinv.st_fresh a ha' hx
            · have haj : a < j := hjrest a ha
              rw [pairIdx_singleton] at hx
              simp only [List.mem_cons, List.mem_singleton, List.not_mem_nil, or_false] at hx
              rcases hx with rfl | rfl <;> omega
      · simp only [pbpAux, if_neg h1, if_neg h2]
        apply ih (i + 1) st acc hk'
        refine ⟨?_, hinv.st_desc, hinv.st_open, ?_, hinv.acc_pos, hinv.sep, hinv.emit,
          hinv.idx_nodup, hinv.st_fresh⟩
        · intro a ha
          have := hinv.st_lt a ha
          omega
        · intro p hp
          have := hinv.acc_lt p hp
          omega

/-- Properties of the raw (unsorted) scan result on a whole string. -/
theorem pbpAux_run (s : List Char) :
    (∀ p ∈ pbpAux s 0 [] [], p.1 < p.2 ∧ s[p.1]? = some '(' ∧ s[p.2]? = some ')') ∧
    (pairIdx (pbpAux s 0 [] [])).Nodup ∧
    List.Pairwise EmitRel (pbpAux s 0 [] []) := by
  apply pbpAux_inv s s 0 [] []
  · intro k; simp
  · exact ⟨by simp, by simp, by simp, by simp, by simp, by simp, by simp,
      by simp [pairIdx], by simp⟩

theorem parseBasePairs_perm (s : List Char) :
    (parseBasePairs s).Perm (pbpAux s 0 [] []) :=
  List.perm_insertionSort pairLex (pbpAux s 0 [] [])

theorem parseBasePairs_mem {s : List Char} {p : Nat × Nat} :
    p ∈ parseBasePairs s ↔ p ∈ pbpAux s 0 [] [] :=
  (parseBasePairs_perm s).mem_iff

theorem parseBasePairs_open_lt_close {s : List Char} {p : Nat × Nat}
    (hp : p ∈ parseBasePairs s) :
    p.1 < p.2 ∧ s[p.1]? = some '(' ∧ s[p.2]? = some ')' :=
  (pbpAux_run s).1 p (parseBasePairs_mem.mp hp)

theorem parseBasePairs_idx_nodup (s : List Char) :
    (pairIdx (parseBasePairs s)).Nodup := by
  have hperm : (pairIdx (parseBasePairs s)).Perm (pairIdx (pbpAux s 0 [] [])) :=
    List.Perm.flatMap_right _ (parseBasePairs_perm s)
  exact hperm.nodup_iff.mpr (pbpAux_run s).2.1

/-- Any two distinct pairs in the output are non-crossing: with `p.1 < q.1`,
either `q` is strictly nested inside `p` or entirely to the right of `p`. -/
theorem parseBasePairs_noncrossing {s : List Char} {p q : Nat × Nat}
    (hp : p ∈ parseBasePairs s) (hq : q ∈ parseBasePairs s) (h12 : p.1 < q.1) :
    q.2 < p.2 ∨ p.2 < q.1 := by
  have hsym : Symmetric (fun u v : Nat × Nat => EmitRel u v ∨ EmitRel v u) := by
    intro u v h; tauto
  have hpw : List.Pairwise (fun u v : Nat × Nat => EmitRel u v ∨ EmitRel v u)
      (pbpAux s 0 [] []) :=
    (pbpAux_run s).2.2.imp (fun h => Or.inl h)
  have hne : p ≠ q := by
    intro h; rw [h] at h12; omega
  have := hpw.forall hsym (parseBasePairs_mem.mp hp) (parseBasePairs_mem.mp hq) hne
  unfold EmitRel at this
  omega

/-- A pair list mentioning each index at most once has pairwise distinct
opening indices. -/
theorem pairIdx_nodup_fst_ne {l : List (Nat × Nat)} (h : (pairIdx l).Nodup) :
    List.Pairwise (fun u v : Nat × Nat => u.1 ≠ v.1) l := by
  induction l with
  | nil => exact List.Pairwise.nil
  | cons p t ih =>
    have hp : pairIdx (p :: t) = p.1 :: p.2 :: pairIdx t := by simp [pairIdx]
    rw [hp] at h
    rcases List.pairwise_cons.mp h with ⟨h1, h2⟩
    rcases List.pairwise_cons.mp h2 with ⟨h3, h4⟩
    refine List.pairwise_cons.mpr ⟨?_, ih h4⟩
    intro q hq heq
    exact h1 q.1 (List.mem_cons_of_mem _ (mem_pairIdx.mpr ⟨q, hq, Or.inl rfl⟩)) heq

/-- The output of `parseBasePairs` is sorted strictly ascending by opening
index. -/
theorem parseBasePairs_sorted (s : List Char) :
    List.Pairwise (fun u v : Nat × Nat => u.1 < v.1) (parseBasePairs s) := by
  have hs : List.Pairwise pairLex (parseBasePairs s) :=
    List.sorted_insertionSort pairLex (pbpAux s 0 [] [])
  have hne : List.Pairwise (fun u v : Nat × Nat => u.1 ≠ v.1) (parseBasePairs s) :=
    pairIdx_nodup_fst_ne (parseBasePairs_idx_nodup s)
  exact (hs.and hne).imp (fun h => by
    rcases h with ⟨hlex, hne'⟩
    unfold pairLex at hlex
    omega)

/-- Counted-scan lemma: if along the remaining input the running number of
`)` never exceeds the stack depth plus the running number of `(`, then every
`)` pops the stack and the scan emits exactly one pair per `)`. -/
theorem pbpAux_length (cs : List Char) :
    ∀ (i : Nat) (st : List Nat) (acc : List (Nat × Nat)),
    (∀ n, (cs.take n).count ')' ≤ st.length + (cs.take n).count '(') →
    (pbpAux cs i st acc).length = acc.length + cs.count ')' := by
  induction cs with
  | nil => intro i st acc _; simp [pbpAux]
  | cons c cs ih =>
    intro i st acc hbal
    by_cases h1 : c = '('
    · simp only [pbpAux, if_pos h1]
      rw [ih (i + 1) (i :: st) acc ?_]
      · subst h1; simp [List.count_cons]
      · intro n
        have := hbal (n + 1)
        subst h1
        simp [List.take_succ_cons, List.count_cons] at this ⊢
        omega
    · by_cases h2 : c = ')'
      · have hne : st ≠ [] := by
          have := hbal 1
          subst h2
          simp only [List.take_succ_cons, List.take_zero, List.count_cons, List.count_nil] at this
          intro hempty
          rw [hempty] at this
          simp at this
        match st, hne with
        | j :: rest, _ =>
          simp only [pbpAux, if_neg h1, if_pos h2]
          rw [ih (i + 1) rest (acc ++ [(j, i)]) ?_]
          · subst h2; simp [List.count_cons]; omega
          · intro n
            have := hbal (n + 1)
            subst h2
            simp [List.take_succ_cons, List.count_cons] at this ⊢
            omega
      · simp only [pbpAux, if_neg h1, if_neg h2]
        rw [ih (i + 1) st acc ?_]
        · simp [List.count_cons, h1, h2]
        · intro n
          have := hbal (n + 1)
          simp only [List.take_succ_cons, List.count_cons, if_neg (by simp [h2] : ¬(c == ')') = true),
            if_neg (by simp [h1] : ¬(c == '(') = true)] at this
          exact this

/-- A dot-bracket string in which every `(` has a matching `)`: no prefix
closes more brackets than it opens, and the total counts agree. -/
def WellBalanced (s : List Char) : Prop :=
  (∀ n < s.length, (s.take n).count ')' ≤ (s.take n).count '(') ∧
  s.count '(' = s.count ')'

instance : DecidablePred WellBalanced := fun s => by unfold WellBalanced; infer_instance

/-- The whitespace characters removed by Python `str.strip()`. -/
def isPySpace (c : Char) : Bool :=
  c = ' ' ∨ c = '\t' ∨ c = '\n' ∨ c = '\r' ∨ c = '\x0b' ∨ c = '\x0c'

/-- Python `str.lstrip()`. -/
def pyLStrip (l : List Char) : List Char := l.dropWhile isPySpace

/-- Python `str.rstrip()`. -/
def pyRStrip (l : List Char) : List Char := (l.reverse.dropWhile isPySpace).reverse

/-- Python `str.strip()`. -/
def pyStrip (l : List Char) : List Char := pyRStrip (pyLStrip l)

/-- Python `str.split('\n')`: cut at every newline, keeping empty segments. -/
def splitNL : List Char → List (List Char)
  | [] => [[]]
  | c :: cs =>
    if c = '\n' then [] :: splitNL cs
    else
      match splitNL cs with
      | [] => [[c]]
      | l :: ls => (c :: l) :: ls

/-- Python `sequence.rstrip('.')` (`mrna_structure_pipeline.py` line 321). -/
def rstripDots (l : List Char) : List Char :=
  (l.reverse.dropWhile (fun c => c = '.')).reverse

/-- Whether `l` fully matches the regex `\s*\([^)]+\)$` used at line 305:
optional whitespace, an opening parenthesis, one or more characters none of
which is `)`, and a final `)` at end of line. -/
def isEnergyTail (l : List Char) : Bool :=
  match l.dropWhile isPySpace with
  | '(' :: rest =>
    match rest.getLast? with
    | some ')' => decide (2 ≤ rest.length) && !(rest.dropLast.contains ')')
    | _ => false
  | _ => false

/-- `re.sub(r'\s*\([^)]+\)$', '', structure_part)` (line 305): delete the
leftmost — hence unique, as the match must reach end of line — matching
suffix, if any. -/
def stripEnergyTail : List Char → List Char
  | [] => []
  | c :: cs => if isEnergyTail (c :: cs) then [] else c :: stripEnergyTail cs

/-- The group of `re.search(r'\(([^)]+)\)$', line)` (line 309): the text
between the leftmost `(` whose tail matches and the final `)`. -/
def energyGroup : List Char → Option (List Char)
  | [] => none
  | c :: cs =>
    if c = '(' ∧ cs.getLast? = some ')' ∧ 2 ≤ cs.length ∧ cs.dropLast.contains ')' = false then
      some cs.dropLast
    else energyGroup cs

/-- Digit-string value. -/
def digitsVal (l : List Char) : Nat := l.foldl (fun a c => a * 10 + (c.toNat - 48)) 0

/-- All characters are ASCII digits. -/
def allDigits (l : List Char) : Bool := l.all (fun c => c.isDigit)

/-- Unsigned decimal literal: digits with an optional single point, at least
one digit overall (Python accepts `1`, `1.`, `.5`, `1.5`). -/
def parseUnsignedDec (l : List Char) : Option ℚ :=
  let intPart := l.takeWhile (fun c => c ≠ '.')
  match l.dropWhile (fun c => c ≠ '.') with
  | [] => if intPart ≠ [] ∧ allDigits intPart then some (digitsVal intPart) else none
  | _ :: frac =>
    if allDigits intPart ∧ allDigits frac ∧ (intPart ≠ [] ∨ frac ≠ []) then
      some ((digitsVal intPart : ℚ) + (digitsVal frac : ℚ) / (10 : ℚ) ^ frac.length)
    else none

/-- Model of Python `float(str)` on the strings this pipeline meets: optional
surrounding whitespace, optional sign, then an unsigned decimal.  Exponents,
`inf`/`nan` and digit underscores — which never occur in RNAfold energy
annotations — are not modelled and yield `none`. -/
def parsePyFloat (l : List Char) : Option ℚ :=
  match pyStrip l with
  | '+' :: r => parseUnsignedDec r
  | '-' :: r => (parseUnsignedDec r).map Neg.neg
  | t => parseUnsignedDec t

/-- The line loop of `parse_rnafold_output` (lines 293–318): skip `>` header
lines, accumulate stripped sequence-only lines, and stop at the first line
containing both `(` and `)`, from which the pre-bracket prefix joins the
sequence, the bracket tail (with the energy annotation removed) is the
structure, and the end-of-line parenthesized group is the energy. -/
def scanLines : List Char → List (List Char) → List Char × List Char × Option ℚ
  | acc, [] => (acc, [], none)
  | acc, line :: rest =>
    if line.head? = some '>' then scanLines acc rest
    else if line.contains '(' ∧ line.contains ')' then
      let fidx := line.findIdx (fun c => c = '(')
      (acc ++ pyStrip (line.take fidx),
       stripEnergyTail (line.drop fidx),
       (energyGroup line).bind parsePyFloat)
    else scanLines (acc ++ pyStrip line) rest

/-- The `StructureResult` record of `mrna_structure_pipeline.py` (lines 28–41).
The Python `structure` field is spelled `struct` (`structure` is a Lean
keyword). -/
structure StructureResult where
  method : List Char
  parameters : List Char
  sequence : List Char
  struct : List Char
  energy : Option ℚ
  base_pairs : List (Nat × Nat)
  num_base_pairs : Nat
  gc_content : ℚ
  base_pair_density : ℚ
deriving DecidableEq

/-- Embedding of `mRNAStructurePipeline.parse_rnafold_output` (lines 274–356),
taking the fold file's text `content` (the `fold_file.exists()` check and the
read are I/O outside the model), the retained `self.actual_sequence`
(`actual_sequence`; Python `None` and `""` are both the empty list, as the
code only tests truthiness) and the parameter tag derived from the file path.
`Except.error` models the `raise ValueError` at line 338; `.ok none` models
`return None`. -/
def parse_rnafold_output (content : List Char) (actual_sequence : List Char)
    (param_tag : List Char) : Except (List Char) (Option StructureResult) :=
  let lines := splitNL (pyStrip content)
  if lines.length < 3 then .ok none
  else
    let scanned := scanLines [] lines.tail
    let sequence := scanned.1
    let structure1 := scanned.2.1
    let energy := scanned.2.2
    let clean_sequence := rstripDots sequence
    if clean_sequence ≠ [] ∧ structure1 ≠ [] ∧ energy.isSome then
      let base_pairs := pbpAux structure1 0 [] []
      if actual_sequence = [] then
        .error ("No sequence available for GC content calculation".toList)
      else
        .ok (some
          { method := "rnafold".toList
            parameters := param_tag
            sequence := clean_sequence
            struct := structure1
            energy := energy
            base_pairs := List.insertionSort pairLex base_pairs
            num_base_pairs := base_pairs.length
            gc_content := ((actual_sequence.count 'G' : ℚ) + (actual_sequence.count 'C' : ℚ)) /
              (actual_sequence.length : ℚ)
            base_pair_density := (base_pairs.length : ℚ) / (structure1.length : ℚ) })
    else .ok none

/-- Whether `pat` occurs as a contiguous segment of the list (Python
`pat in line`). -/
def containsSeg (pat : List Char) : List Char → Bool
  | [] => pat.isEmpty
  | c :: cs => pat.isPrefixOf (c :: cs) || containsSeg pat cs

/-- The segment of `l` strictly before the first occurrence of `pat`, or all
of `l` when `pat` does not occur. -/
def uptoSeg (pat : List Char) : List Char → List Char
  | [] => []
  | c :: cs => if pat.isPrefixOf (c :: cs) then [] else c :: uptoSeg pat cs

/-- Python `l.split(pat)[1]` when `pat` occurs in `l`: the segment between the
end of the first occurrence and the start of the next (or the end of `l`). -/
def afterSeg (pat : List Char) : List Char → Option (List Char)
  | [] => none
  | c :: cs =>
    if pat.isPrefixOf (c :: cs) then some (uptoSeg pat ((c :: cs).drop pat.length))
    else afterSeg pat cs

/-- Python `.strip().split()[0]`: the first whitespace-delimited token, if
there is one. -/
def firstToken (l : List Char) : Option (List Char) :=
  let l1 := l.dropWhile isPySpace
  if l1.isEmpty then none else some (l1.takeWhile (fun c => !(isPySpace c)))

/-- The line-classification loop of `_parse_rnafold_output`
(`rnafold_wrapper.py` lines 108–115): remember the last line that starts with
the sequence or with `(`/`.` as the structure line, and the last line
containing `energy =` as the energy line. -/
def wrapperScanLines (sequence : List Char) :
    List (List Char) → Option (List Char) × Option (List Char) →
    Option (List Char) × Option (List Char)
  | [], st => st
  | line :: rest, (sl, el) =>
    if sequence.isPrefixOf line then wrapperScanLines sequence rest (some line, el)
    else if line.head? = some '(' ∨ line.head? = some '.' then
      wrapperScanLines sequence rest (some line, el)
    else if containsSeg ("energy =".toList) line then
      wrapperScanLines sequence rest (sl, some line)
    else wrapperScanLines sequence rest (sl, el)

/-- The structure/energy/base-pair record returned by
`_parse_rnafold_output`.  The Python `structure` key is spelled `struct`. -/
structure WrapperResult where
  struct : List Char
  energy : Option ℚ
  base_pairs : List (Nat × Nat)
deriving DecidableEq

/-- Embedding of `RNAfoldPredictor._parse_rnafold_output`
(`rnafold_wrapper.py` lines 100–142).  `Except.error` models the
`raise ValueError` at line 118 (taken when `structure_line` is `None` or the
empty string, since the code tests truthiness); the bare `except: pass`
around energy extraction (lines 129–133) is the `Option` fall-through to
`none`. -/
def parse_rnafold_wrapper_output (output : List Char) (sequence : List Char) :
    Except (List Char) WrapperResult :=
  let lines := splitNL (pyStrip output)
  match wrapperScanLines sequence lines (none, none) with
  | (some structure_line, energy_line) =>
    if structure_line = [] then .error ("Could not parse RNAfold output".toList)
    else
      let structure1 :=
        if sequence.length < structure_line.length then
          pyStrip (structure_line.drop sequence.length)
        else structure_line
      let energy : Option ℚ :=
        match energy_line with
        | none => none
        | some el =>
          if el = [] then none
          else ((afterSeg ("energy =".toList) el).bind firstToken).bind parsePyFloat
      .ok { struct := structure1
            energy := energy
            base_pairs := parseBasePairs structure1 }
  | (none, _) => .error ("Could not parse RNAfold output".toList)

/-- The Python set `set('ACGUacgu')` of permitted characters in
`validate_sequence` (`base.py` line 39). -/
def valid_chars : Finset Char := {'A', 'C', 'G', 'U', 'a', 'c', 'g', 'u'}

/-- Embedding of `BasePredictor.validate_sequence` (`base.py` lines 29–46) on
string input (the `SeqRecord` branch merely converts the record to its
string first).  The `Except.error` carries the `invalid_chars` set reported
by the raised `ValueError`. -/
def validate_sequence (seq_str : List Char) : Except (Finset Char) (List Char) :=
  let seq_chars : Finset Char := (seq_str.map Char.toUpper).toFinset
  if seq_chars ⊆ valid_chars then .ok (seq_str.map Char.toUpper)
  else .error (seq_chars \ valid_chars)

/-- The scan emits at most one pair per `)` and at most one per `(` (plus the
entries already on the stack): unmatched brackets contribute nothing. -/
theorem pbpAux_length_le (cs : List Char) :
    ∀ (i : Nat) (st : List Nat) (acc : List (Nat × Nat)),
    (pbpAux cs i st acc).length ≤ acc.length + cs.count ')' ∧
    (pbpAux cs i st acc).length ≤ acc.length + st.length + cs.count '(' := by
  induction cs with
  | nil => intro i st acc; simp [pbpAux]
  | cons c cs ih =>
    intro i st acc
    by_cases h1 : c = '('
    · simp only [pbpAux, if_pos h1]
      have := ih (i + 1) (i :: st) acc
      subst h1
      simp [List.count_cons] at this ⊢
      omega
    · by_cases h2 : c = ')'
      · simp only [pbpAux, if_neg h1, if_pos h2]
        subst h2
        cases st with
        | nil =>
          have := ih (i + 1) [] acc
          simp [List.count_cons, h1] at this ⊢
          omega
        | cons j rest =>
          have := ih (i + 1) rest (acc ++ [(j, i)])
          simp [List.count_cons, h1] at this ⊢
          omega
      · simp only [pbpAux, if_neg h1, if_neg h2]
        have := ih (i + 1) st acc
        simp [List.count_cons, h1, h2] at this ⊢
        omega

/-- **C1** (counterexample): the claim predicts that the reconstruction raises
`UnbalancedStructureError` on `"(()"` and `"())"`; `_parse_base_pairs` has no
raise statement at all and returns normally on both inputs, discarding the
unmatched bracket. -/
theorem claim_C1_counterexample :
    parseBasePairs ("(()".toList) = [(1, 2)] ∧
    parseBasePairs ("())".toList) = [(0, 1)] := by
  exact ⟨by decide, by decide⟩

/-- **C1** (amended): the reconstruction is total and never raises; a `)`
scanned on an empty stack is ignored and unmatched `(` positions are
discarded, so the output never has more pairs than either bracket count; in
particular `"(()"` yields `[(1, 2)]` and `"())"` yields `[(0, 1)]`. -/
theorem claim_C1_amended :
    (∀ s : List Char, (parseBasePairs s).length ≤ s.count '(' ∧
      (parseBasePairs s).length ≤ s.count ')') ∧
    parseBasePairs ("(()".toList) = [(1, 2)] ∧
    parseBasePairs ("())".toList) = [(0, 1)] := by
  refine ⟨fun s => ?_, by decide, by decide⟩
  have hle := pbpAux_length_le s 0 [] []
  have hlen : (parseBasePairs s).length = (pbpAux s 0 [] []).length :=
    (parseBasePairs_perm s).length_eq
  simp at hle
  omega

/-- **C3**: for a well-balanced structure string the reconstruction returns
one pair per `(`, whose count equals the count of `)`. -/
theorem claim_C3 (s : List Char) (hbal : WellBalanced s) :
    (parseBasePairs s).length = s.count '(' ∧ s.count '(' = s.count ')' := by
  have hlen : (pbpAux s 0 [] []).length = 0 + s.count ')' := by
    apply pbpAux_length s 0 [] []
    intro n
    by_cases hn : n < s.length
    · simpa using hbal.1 n hn
    · have ht : s.take n = s := List.take_of_length_le (by omega)
      rw [ht]
      simp [hbal.2]
  have hperm : (parseBasePairs s).length = (pbpAux s 0 [] []).length :=
    (parseBasePairs_perm s).length_eq
  refine ⟨?_, hbal.2⟩
  rw [hperm, hlen, hbal.2]
  omega

/-- Witness for `claim_C3` at the balanced structure `"((...)).()"`. -/
theorem claim_C3_witness :
    WellBalanced ("((...)).()".toList) ∧
    ((parseBasePairs ("((...)).()".toList)).length = ("((...)).()".toList).count '(' ∧
      ("((...)).()".toList).count '(' = ("((...)).()".toList).count ')') :=
  ⟨by decide, claim_C3 ("((...)).()".toList) (by decide)⟩

/-- **C4**: every output of the reconstruction has `i < j` in each pair, no
index in more than one pair, no two crossing pairs, and is sorted strictly
ascending by opening index. -/
theorem claim_C4 (s : List Char) :
    (∀ p ∈ parseBasePairs s, p.1 < p.2) ∧
    (pairIdx (parseBasePairs s)).Nodup ∧
    (∀ p ∈ parseBasePairs s, ∀ q ∈ parseBasePairs s, p.1 < q.1 →
      q.2 < p.2 ∨ p.2 < q.1) ∧
    List.Pairwise (fun u v : Nat × Nat => u.1 < v.1) (parseBasePairs s) :=
  ⟨fun _ hp => (parseBasePairs_open_lt_close hp).1,
   parseBasePairs_idx_nodup s,
   fun _ hp _ hq h => parseBasePairs_noncrossing hp hq h,
   parseBasePairs_sorted s⟩

/-- Witness for `claim_C4`: concrete non-crossing consequence on `"(())"`. -/
theorem claim_C4_witness :
    (0, 3) ∈ parseBasePairs ("(())".toList) ∧
    (1, 2) ∈ parseBasePairs ("(())".toList) ∧
    (((1, 2) : Nat × Nat).2 < ((0, 3) : Nat × Nat).2 ∨
      ((0, 3) : Nat × Nat).2 < ((1, 2) : Nat × Nat).1) :=
  ⟨by decide, by decide,
    (claim_C4 ("(())".toList)).2.2.1 (0, 3) (by decide) (1, 2) (by decide) (by decide)⟩

/-- **C10**: the reconstruction is total on arbitrary strings — unmatched
brackets and foreign characters cannot make it fail — and its output always
pairs a `(` position with a later `)` position, mentions each index at most
once, and is sorted ascending by opening index. -/
theorem claim_C10 (s : List Char) :
    (∀ p ∈ parseBasePairs s, p.1 < p.2 ∧ s[p.1]? = some '(' ∧ s[p.2]? = some ')') ∧
    (pairIdx (parseBasePairs s)).Nodup ∧
    List.Pairwise (fun u v : Nat × Nat => u.1 < v.1) (parseBasePairs s) :=
  ⟨fun _ hp => parseBasePairs_open_lt_close hp,
   parseBasePairs_idx_nodup s,
   parseBasePairs_sorted s⟩

/-- Witness for `claim_C10` at the unbalanced, garbage-laden string
`")x()((A."`. -/
theorem claim_C10_witness :
    (pairIdx (parseBasePairs (")x()((A.".toList))).Nodup ∧
    List.Pairwise (fun u v : Nat × Nat => u.1 < v.1)
      (parseBasePairs (")x()((A.".toList)) :=
  ⟨(claim_C10 (")x()((A.".toList)).2.1, (claim_C10 (")x()((A.".toList)).2.2⟩

/-- `Char.toUpper` either subtracts 32 from an ASCII lowercase letter or
leaves the character unchanged. -/
theorem toUpper_toNat (c : Char) :
    (97 ≤ c.toNat ∧ c.toNat ≤ 122 ∧ c.toUpper.toNat = c.toNat - 32) ∨
    (¬(97 ≤ c.toNat ∧ c.toNat ≤ 122) ∧ c.toUpper = c) := by
  unfold Char.toUpper
  by_cases hc : c.toNat ≥ 97 ∧ c.toNat ≤ 122
  · left
    refine ⟨hc.1, hc.2, ?_⟩
    simp only [if_pos hc]
    have hv : (c.toNat - 32).isValidChar := by
      unfold Nat.isValidChar
      left; omega
    simp only [Char.ofNat, dif_pos hv]
    rfl
  · right
    exact ⟨hc, by simp [if_neg hc]⟩

/-- The image of `Char.toUpper` never contains an ASCII lowercase letter of
the RNA alphabet. -/
theorem toUpper_notin_lowercase (c : Char) :
    c.toUpper ∉ (['a', 'c', 'g', 'u'] : List Char) := by
  intro hmem
  have hn : c.toUpper.toNat = 97 ∨ c.toUpper.toNat = 99 ∨ c.toUpper.toNat = 103 ∨
      c.toUpper.toNat = 117 := by
    simp only [List.mem_cons, List.mem_singleton, List.not_mem_nil, or_false] at hmem
    rcases hmem with h | h | h | h <;> rw [h] <;> decide
  rcases toUpper_toNat c with ⟨h1, h2, h3⟩ | ⟨h1, h2⟩
  · omega
  · rw [h2] at hn
    omega

/-- **C8**: any input containing a character outside `{A, C, G, U}` after
uppercasing is rejected by `validate_sequence` with the exact set of
offending characters; in particular `"ACGTX"` is rejected citing both `T`
and `X`. -/
theorem claim_C8 :
    (∀ s : List Char,
      (∃ c ∈ s.map Char.toUpper, c ∉ ({'A', 'C', 'G', 'U'} : Finset Char)) →
      ∃ bad : Finset Char, validate_sequence s = .error bad ∧
        ∀ x, x ∈ bad ↔
          x ∈ (s.map Char.toUpper).toFinset ∧ x ∉ ({'A', 'C', 'G', 'U'} : Finset Char)) ∧
    (∃ bad : Finset Char, validate_sequence ("ACGTX".toList) = .error bad ∧
      'T' ∈ bad ∧ 'X' ∈ bad ∧ bad.card = 2) := by
  constructor
  · intro s hex
    rcases hex with ⟨c, hc, hcnot⟩
    have himg : ∀ x ∈ (s.map Char.toUpper).toFinset,
        x ∈ valid_chars ↔ x ∈ ({'A', 'C', 'G', 'U'} : Finset Char) := by
      intro x hx
      rcases List.mem_map.mp (List.mem_toFinset.mp hx) with ⟨c₀, _, rfl⟩
      have hlow := toUpper_notin_lowercase c₀
      simp only [List.mem_cons, List.mem_singleton, List.not_mem_nil, or_false,
        not_or] at hlow
      simp [valid_chars, Finset.mem_insert, Finset.mem_singleton]
      tauto
    have hnotsub : ¬ ((s.map Char.toUpper).toFinset ⊆ valid_chars) := by
      intro hsub
      have hc' : c ∈ (s.map Char.toUpper).toFinset := List.mem_toFinset.mpr hc
      exact hcnot ((himg c hc').mp (hsub hc'))
    refine ⟨(s.map Char.toUpper).toFinset \ valid_chars, ?_, ?_⟩
    · unfold validate_sequence
      rw [if_neg hnotsub]
    · intro x
      rw [Finset.mem_sdiff]
      constructor
      · rintro ⟨hx1, hx2⟩
        exact ⟨hx1, fun hx3 => hx2 ((himg x hx1).mpr hx3)⟩
      · rintro ⟨hx1, hx2⟩
        exact ⟨hx1, fun hx3 => hx2 ((himg x hx1).mp hx3)⟩
  · exact ⟨_, rfl, by decide, by decide, by decide⟩

/-- Witness for the general part of `claim_C8` at the input `"ACGTX"`. -/
theorem claim_C8_witness :
    ∃ bad : Finset Char, validate_sequence ("ACGTX".toList) = .error bad ∧
      ∀ x, x ∈ bad ↔
        x ∈ (("ACGTX".toList).map Char.toUpper).toFinset ∧
        x ∉ ({'A', 'C', 'G', 'U'} : Finset Char) :=
  claim_C8.1 ("ACGTX".toList) ⟨'T', by decide, by decide⟩

/-- **C9** (counterexample): the claim predicts `EmptySequenceError` on the
empty input; `validate_sequence` has no emptiness check and accepts `""`,
returning the empty sequence. -/
theorem claim_C9_counterexample : validate_sequence [] = .ok [] := rfl

/-- **C9** (amended): `validate_sequence` performs no emptiness check — every
input all of whose uppercased characters lie in the permitted set, including
the empty string, is accepted and returned uppercased. -/
theorem claim_C9_amended (s : List Char)
    (h : ∀ c ∈ s.map Char.toUpper, c ∈ valid_chars) :
    validate_sequence s = .ok (s.map Char.toUpper) := by
  unfold validate_sequence
  have hsub : (s.map Char.toUpper).toFinset ⊆ valid_chars := by
    intro c hc
    exact h c (List.mem_toFinset.mp hc)
  rw [if_pos hsub]

/-- Witness for `claim_C9_amended` at the empty string. -/
theorem claim_C9_witness : validate_sequence ("".toList) = .ok ("".toList) := by
  rw [claim_C9_amended ("".toList) (by decide)]
  rfl

theorem head?_dropWhile_not (p : Char → Bool) (l : List Char) {c : Char}
    (h : (l.dropWhile p).head? = some c) : p c = false := by
  induction l with
  | nil => simp [List.dropWhile] at h
  | cons a t ih =>
    rw [List.dropWhile_cons] at h
    by_cases hp : p a
    · rw [if_pos hp] at h; exact ih h
    · rw [if_neg hp] at h
      simp only [List.head?_cons, Option.some.injEq] at h
      subst h
      simpa using hp

/-- `rstrip('.')` removes exactly the maximal run of trailing dots: the
original list is the result followed by a run of dots, and the result never
ends in a dot. -/
theorem rstripDots_spec (l : List Char) :
    ∃ t, l = rstripDots l ++ t ∧ (∀ c ∈ t, c = '.') ∧
      (rstripDots l).getLast? ≠ some '.' := by
  refine ⟨(l.reverse.takeWhile (fun c => c = '.')).reverse, ?_, ?_, ?_⟩
  · unfold rstripDots
    rw [← List.reverse_append, List.takeWhile_append_dropWhile, List.reverse_reverse]
  · intro c hc
    have := List.mem_takeWhile_imp (List.mem_reverse.mp hc)
    simpa using this
  · intro hlast
    rw [rstripDots, List.getLast?_reverse] at hlast
    have := head?_dropWhile_not _ _ hlast
    simp at this

/-- The value a caller of `parse_rnafold_output` observes when no exception
is raised: `None` or the produced record. -/
def okResult : Except (List Char) (Option StructureResult) → Option StructureResult
  | .ok r => r
  | .error _ => none

/-- **C6** (counterexample): in `"hdr\nACGU..\n((..)) (-1.0)"` the
reconstructed raw sequence is `"ACGU.."` (6 characters) and the structure is
`"((..))"` (6 characters) — the lengths already match — yet the produced
record's sequence is `"ACGU"`: the trailing dots were stripped anyway,
against the claim that stripping happens only on a length mismatch. -/
theorem claim_C6_counterexample :
    (scanLines [] (splitNL (pyStrip ("hdr\nACGU..\n((..)) (-1.0)".toList))).tail).1 =
      "ACGU..".toList ∧
    (scanLines [] (splitNL (pyStrip ("hdr\nACGU..\n((..)) (-1.0)".toList))).tail).2.1 =
      "((..))".toList ∧
    (okResult (parse_rnafold_output ("hdr\nACGU..\n((..)) (-1.0)".toList)
        ("ACGU".toList) ("p".toList))).map (fun r => r.sequence) =
      some ("ACGU".toList) := by
  exact ⟨by decide, by decide, by decide⟩

/-- **C6** (amended): whenever the pipeline parser produces a record, its
sequence is the raw reconstructed sequence with its entire run of trailing
dots removed — unconditionally, with no length-mismatch test — and interior
dots are untouched (only a trailing all-dot run is dropped). -/
theorem claim_C6_amended (content actual ptag : List Char) (r : StructureResult)
    (h : parse_rnafold_output content actual ptag = .ok (some r)) :
    ∃ t, (scanLines [] (splitNL (pyStrip content)).tail).1 = r.sequence ++ t ∧
      (∀ c ∈ t, c = '.') ∧ r.sequence.getLast? ≠ some '.' := by
  simp only [parse_rnafold_output] at h
  split at h
  · simp at h
  · split at h
    · split at h
      · simp at h
      · simp only [Except.ok.injEq, Option.some.injEq] at h
        subst h
        simpa using rstripDots_spec (scanLines [] (splitNL (pyStrip content)).tail).1
    · simp at h

/-- Witness for `claim_C6_amended` on a well-formed output block. -/
theorem claim_C6_witness :
    ∃ t, (scanLines [] (splitNL (pyStrip ("hdr\nACGU\n(..) (-1.0)".toList))).tail).1 =
        "ACGU".toList ++ t ∧ (∀ c ∈ t, c = '.') ∧
      ("ACGU".toList).getLast? ≠ some '.' :=
  claim_C6_amended ("hdr\nACGU\n(..) (-1.0)".toList) ("ACGU".toList) ("p".toList) _ rfl

/-- **C7** (counterexample): on `"hdr\nACGUACGU\n((..)) (-1.0)"` the
reconstructed sequence has 8 characters and the structure 6, yet
`parse_rnafold_output` produces a record: no `LengthMismatchError` is
raised for mismatched lengths. -/
theorem claim_C7_counterexample :
    (okResult (parse_rnafold_output ("hdr\nACGUACGU\n((..)) (-1.0)".toList)
        ("ACGU".toList) ("p".toList))).map
      (fun r => (r.sequence.length, r.struct.length)) = some (8, 6) := by
  decide

/-- **C7** (amended): the pipeline parser performs no length comparison at
all — its only raisable exception is the missing-sequence `ValueError` of the
GC computation, and a record whose sequence and structure lengths differ is
produced. -/
theorem claim_C7_amended :
    (∀ content actual ptag e,
      parse_rnafold_output content actual ptag = .error e →
      e = "No sequence available for GC content calculation".toList) ∧
    ((okResult (parse_rnafold_output ("hdr\nACGUACGU\n((..)) (-1.0)".toList)
        ("ACGU".toList) ("p".toList))).map
      (fun r => decide (r.sequence.length = r.struct.length)) = some false) := by
  constructor
  · intro content actual ptag e h
    simp only [parse_rnafold_output] at h
    split at h
    · simp at h
    · split at h
      · split at h
        · simp only [Except.error.injEq] at h
          exact h.symm
        · simp at h
      · simp at h
  · decide

/-- Witness for the first part of `claim_C7_amended`: the only error path is
the GC-sequence `ValueError`, reached with an empty retained sequence. -/
theorem claim_C7_witness :
    ("No sequence available for GC content calculation".toList : List Char) =
      "No sequence available for GC content calculation".toList :=
  claim_C7_amended.1 ("hdr\nACGU\n(..) (-2.0)".toList) [] ("p".toList) _ rfl

/-- **C2** (counterexample): on `"hdr\nACGU\n((..)) (abc)"` the parser
recovers the non-empty sequence `"ACGU"` and the structure `"((..))"`, the
energy annotation `(abc)` fails to parse as a float, and
`parse_rnafold_output` then returns `None`: no record with a null energy is
produced, contradicting the claim for this parser. -/
theorem claim_C2_counterexample :
    (scanLines [] (splitNL (pyStrip ("hdr\nACGU\n((..)) (abc)".toList))).tail).1 =
      "ACGU".toList ∧
    (scanLines [] (splitNL (pyStrip ("hdr\nACGU\n((..)) (abc)".toList))).tail).2.1 =
      "((..))".toList ∧
    (scanLines [] (splitNL (pyStrip ("hdr\nACGU\n((..)) (abc)".toList))).tail).2.2 = none ∧
    parse_rnafold_output ("hdr\nACGU\n((..)) (abc)".toList) ("ACGU".toList) ("p".toList) =
      .ok none :=
  ⟨rfl, rfl, rfl, rfl⟩

/-- **C2** (amended): energy-parse failure does not abort the wrapper parser
`_parse_rnafold_output`: whenever a (truthy) structure line is found it
returns a result whose structure is the parsed structure (with its base
pairs), and whose energy is null both when no `energy =` line exists and
when such a line exists but its extracted value fails to parse as a float
(the bare `except: pass`); the pipeline's `parse_rnafold_output`, by
contrast, requires a parsed energy and produces no record (returns `None`)
whenever the energy is null. -/
theorem claim_C2_amended :
    (∀ content actual ptag,
      (scanLines [] (splitNL (pyStrip content)).tail).2.2 = none →
      parse_rnafold_output content actual ptag = .ok none) ∧
    (∀ output seq sl el,
      wrapperScanLines seq (splitNL (pyStrip output)) (none, none) = (some sl, el) →
      sl ≠ [] →
      ∃ w, parse_rnafold_wrapper_output output seq = .ok w ∧
        w.struct = (if seq.length < sl.length then pyStrip (sl.drop seq.length) else sl) ∧
        w.base_pairs = parseBasePairs w.struct ∧
        (el = none → w.energy = none) ∧
        (∀ el', el = some el' →
          ((afterSeg ("energy =".toList) el').bind firstToken).bind parsePyFloat = none →
          w.energy = none)) := by
  constructor
  · intro content actual ptag hen
    simp only [parse_rnafold_output]
    split
    · rfl
    · rw [if_neg]
      intro hcon
      rw [hen] at hcon
      simp at hcon
  · intro output seq sl el hscan hne
    simp only [parse_rnafold_wrapper_output]
    rw [hscan]
    simp only [if_neg hne]
    refine ⟨_, rfl, rfl, rfl, fun helnone => by subst helnone; rfl, ?_⟩
    intro el' hel hfail
    subst hel
    show (if el' = [] then none
      else ((afterSeg ("energy =".toList) el').bind firstToken).bind parsePyFloat) = none
    by_cases h0 : el' = []
    · rw [if_pos h0]
    · rw [if_neg h0]
      exact hfail

/-- Witness for `claim_C2_amended`: the pipeline parser on an unparseable
energy annotation, and the wrapper parser on an output whose `energy =` line
carries a value `float()` rejects. -/
theorem claim_C2_witness :
    parse_rnafold_output ("hdr\nACGU\n((..)) (xyz)".toList) ("ACGU".toList) ("p".toList) =
      .ok none ∧
    ∃ w, parse_rnafold_wrapper_output ("ACGU\n((.))\n energy = abc".toList)
        ("ACGU".toList) = .ok w ∧
      w.struct = (if ("ACGU".toList).length < ("((.))".toList).length then
          pyStrip (("((.))".toList).drop ("ACGU".toList).length) else "((.))".toList) ∧
      w.base_pairs = parseBasePairs w.struct ∧
      ((some (" energy = abc".toList) : Option (List Char)) = none → w.energy = none) ∧
      (∀ el', (some (" energy = abc".toList) : Option (List Char)) = some el' →
        ((afterSeg ("energy =".toList) el').bind firstToken).bind parsePyFloat = none →
        w.energy = none) :=
  ⟨claim_C2_amended.1 ("hdr\nACGU\n((..)) (xyz)".toList) ("ACGU".toList) ("p".toList) rfl,
   claim_C2_amended.2 ("ACGU\n((.))\n energy = abc".toList) ("ACGU".toList)
     ("((.))".toList) (some (" energy = abc".toList)) rfl (by decide)⟩

/-- **C5**: the metrics on every produced record are
`gc_content = (#G + #C) / len(retained sequence)` and
`base_pair_density = num_base_pairs / len(structure)` — normalized by the
full structure length including unpaired positions, and in particular not
`2 * num_base_pairs / len(structure)` — and both divisions are well-defined
because a record is only produced with a non-empty retained sequence and a
non-empty structure. -/
theorem claim_C5 (content actual ptag : List Char) (r : StructureResult)
    (h : parse_rnafold_output content actual ptag = .ok (some r)) :
    actual ≠ [] ∧ r.struct ≠ [] ∧
    r.gc_content = ((actual.count 'G' : ℚ) + (actual.count 'C' : ℚ)) / (actual.length : ℚ) ∧
    r.num_base_pairs = r.base_pairs.length ∧
    r.base_pair_density = (r.num_base_pairs : ℚ) / (r.struct.length : ℚ) ∧
    (r.num_base_pairs ≠ 0 →
      r.base_pair_density ≠ 2 * (r.num_base_pairs : ℚ) / (r.struct.length : ℚ)) := by
  simp only [parse_rnafold_output] at h
  split at h
  · simp at h
  · split at h
    · split at h
      · simp at h
      · rename_i hbig hguard hact
        simp only [Except.ok.injEq, Option.some.injEq] at h
        subst h
        refine ⟨hact, hguard.2.1, rfl, (List.length_insertionSort _ _).symm, rfl, ?_⟩
        intro hn heq
        have hstne : (scanLines [] (splitNL (pyStrip content)).tail).2.1 ≠ [] := hguard.2.1
        have hL : (((scanLines [] (splitNL (pyStrip content)).tail).2.1.length : ℚ)) ≠ 0 := by
          simp only [ne_eq, Nat.cast_eq_zero, List.length_eq_zero]
          exact hstne
        have hnq : ((pbpAux (scanLines [] (splitNL (pyStrip content)).tail).2.1
            0 [] []).length : ℚ) ≠ 0 := by
          simpa using hn
        rw [div_eq_div_iff hL hL] at heq
        have h2 := mul_right_cancel₀ hL heq
        have h3 : ((pbpAux (scanLines [] (splitNL (pyStrip content)).tail).2.1
            0 [] []).length : ℚ) = 0 := by linarith
        exact hnq h3
    · simp at h

/-- Witness for `claim_C5` at the spec's hairpin scenario
`"GGGGAAACCCC"` / `"((((...))))"` with energy `-5.20`. -/
theorem claim_C5_witness :
    "GGGGAAACCCC".toList ≠ ([] : List Char) ∧
    "((((...))))".toList ≠ ([] : List Char) ∧
    (((("GGGGAAACCCC".toList).count 'G' : ℚ) + (("GGGGAAACCCC".toList).count 'C' : ℚ)) /
          (("GGGGAAACCCC".toList).length : ℚ) =
        ((("GGGGAAACCCC".toList).count 'G' : ℚ) + (("GGGGAAACCCC".toList).count 'C' : ℚ)) /
          (("GGGGAAACCCC".toList).length : ℚ)) ∧
    (4 : Nat) = (4 : Nat) ∧
    (((4 : Nat) : ℚ) / ((11 : Nat) : ℚ) = ((4 : Nat) : ℚ) / ((11 : Nat) : ℚ)) ∧
    ((4 : Nat) ≠ 0 →
      ((4 : Nat) : ℚ) / ((11 : Nat) : ℚ) ≠ 2 * ((4 : Nat) : ℚ) / ((11 : Nat) : ℚ)) :=
  claim_C5 ("hdr\nGGGGAAACCCC\n((((...)))) (-5.20)".toList) ("GGGGAAACCCC".toList)
    ("p".toList) _ rfl
